import Mathlib

/-!
Shallow embedding of the technical-indicator pipeline of
`stock_data.py` (functions `calculate_technical_indicators`,
`fetch_stock_data`'s business-day filter, and the moving-average
emission of `plot_stock_data`).

Conventions of the embedding:
* prices are rationals (`ℚ`); pandas' NaN cell is `Option.none`;
* a column is a `List (Option ℝ)` aligned with the rows; the purely
  rational columns are built in `ℚ` and cast (`qcol`);
* dates are integer day numbers with day 0 a Monday, so a date `d` is a
  weekday exactly when `d % 7 < 5` (pandas `freq='B'` excludes only
  weekends);
* IEEE division semantics of `gain/loss` for the nonnegative averages
  arising here: `g / l` with `l = 0` is `+inf` when `g ≠ 0` (the final
  RSI is then exactly 100) and NaN when `g = 0` (`rsiCell`);
* the in-place column assignment `data['X'] = ...` of pandas is
  explicit state passing: `setCol` replaces an existing column of that
  name or appends a new one, and the caller's frame after the call is
  the returned frame (same object).
-/

namespace StockData

/-- One row of the fetched OHLCV frame.  `date` is a day number with day
0 a Monday. -/
structure Row where
  date : ℤ
  Open : ℚ
  High : ℚ
  Low : ℚ
  Close : ℚ
  Volume : ℕ
  deriving DecidableEq, Repr

/-- A pandas DataFrame: the fetched OHLCV rows plus the named indicator
columns added by assignment, in insertion order. -/
structure Frame where
  rows : List Row
  extra : List (String × List (Option ℝ))

/-- The `Close` column of a frame. -/
def closes (f : Frame) : List ℚ := f.rows.map Row.Close

/-- `data['name'] = col`: replace the column if the name is present,
otherwise append it. -/
def setCol (f : Frame) (name : String) (col : List (Option ℝ)) : Frame :=
  if f.extra.any (fun p => p.1 = name) then
    ⟨f.rows, f.extra.map (fun p => if p.1 = name then (name, col) else p)⟩
  else
    ⟨f.rows, f.extra ++ [(name, col)]⟩

/-- `data['name']`: the first column stored under `name`, if any. -/
def getCol (f : Frame) (name : String) : Option (List (Option ℝ)) :=
  (f.extra.find? (fun p => p.1 = name)).map Prod.snd

/-- `Series.diff()`: NaN at index 0, consecutive differences after. -/
def diffs : List ℚ → List (Option ℚ)
  | [] => []
  | x :: xs => none :: List.zipWith (fun a b => some (b - a)) (x :: xs) xs

/-- `delta.where(delta > 0, 0)`: the NaN at index 0 fails the
comparison and is replaced by 0, like every nonpositive delta. -/
def gains (xs : List ℚ) : List ℚ :=
  (diffs xs).map (fun d => match d with
    | some v => if 0 < v then v else 0
    | none => 0)

/-- `(-delta.where(delta < 0, 0))`: 0 at index 0 and at nonnegative
deltas, `-delta` at negative deltas. -/
def losses (xs : List ℚ) : List ℚ :=
  (diffs xs).map (fun d => match d with
    | some v => if v < 0 then -v else 0
    | none => 0)

/-- The trailing window of width `w` ending at index `i`. -/
def window (w : ℕ) (xs : List ℚ) (i : ℕ) : List ℚ :=
  (xs.drop (i + 1 - w)).take w

/-- `rolling(window=w).mean()` at index `i`: NaN until the window is
full (`min_periods` defaults to the window size). -/
def rollingIdx (w : ℕ) (xs : List ℚ) (i : ℕ) : Option ℚ :=
  if w ≤ i + 1 then some ((window w xs i).sum / w) else none

/-- `rolling(window=w).mean()` as a column. -/
def rollingMean (w : ℕ) (xs : List ℚ) : List (Option ℚ) :=
  (List.range xs.length).map (rollingIdx w xs)

/-- Sample variance (pandas `ddof=1`) of a window of width `w`. -/
def windowVar (w : ℕ) (win : List ℚ) : ℚ :=
  ((win.map (fun x => (x - win.sum / w) ^ 2)).sum) / ((w : ℚ) - 1)

/-- The square of `rolling(window=w).std()` at index `i`. -/
def rollingVarIdx (w : ℕ) (xs : List ℚ) (i : ℕ) : Option ℚ :=
  if w ≤ i + 1 then some (windowVar w (window w xs i)) else none

/-- The square of `rolling(window=w).std()` as a column. -/
def rollingVar (w : ℕ) (xs : List ℚ) : List (Option ℚ) :=
  (List.range xs.length).map (rollingVarIdx w xs)

/-- `100 - (100 / (1 + gain/loss))` for one cell, under IEEE division:
the averages `g`, `l` are nonnegative, so `l = 0` gives `RS = +inf`
(RSI exactly 100) when `g ≠ 0` and NaN when `g = 0`. -/
def rsiCell (g l : ℚ) : Option ℚ :=
  if l = 0 then (if g = 0 then none else some 100)
  else some (100 - 100 / (1 + g / l))

/-- Lift `rsiCell` to NaN-aware cells: a NaN average (unfull window)
propagates to a NaN RSI. -/
def rsiCellO (go lo : Option ℚ) : Option ℚ :=
  match go, lo with
  | some g, some l => rsiCell g l
  | _, _ => none

/-- The `RSI` column: 14-period rolling means of gains and losses
combined cellwise (NaN cells from the unfull windows stay NaN). -/
def rsiColumn (xs : List ℚ) : List (Option ℚ) :=
  List.zipWith rsiCellO
    (rollingMean 14 (gains xs)) (rollingMean 14 (losses xs))

/-- The RSI value at index `i` (out-of-range reads give NaN). -/
def rsiIdx (xs : List ℚ) (i : ℕ) : Option ℚ :=
  (rsiColumn xs).getD i none

/-- Tail of the `ewm(span, adjust=False).mean()` recursion:
`ema[t] = a*x[t] + (1-a)*ema[t-1]` with `prev` the previous EMA. -/
def emaFrom (a : ℚ) (prev : ℚ) : List ℚ → List ℚ
  | [] => []
  | x :: xs => (a * x + (1 - a) * prev) :: emaFrom a (a * x + (1 - a) * prev) xs

/-- `ewm(span=s, adjust=False).mean()`: seeded with the first value,
smoothing factor `a = 2/(s+1)`. -/
def emaList (s : ℕ) : List ℚ → List ℚ
  | [] => []
  | x :: xs => x :: emaFrom (2 / ((s : ℚ) + 1)) x xs

/-- `MACD = ema12 - ema26`. -/
def macdList (xs : List ℚ) : List ℚ :=
  List.zipWith (fun a b => a - b) (emaList 12 xs) (emaList 26 xs)

/-- `Signal_Line`: 9-span EMA of the MACD column. -/
def signalList (xs : List ℚ) : List ℚ :=
  emaList 9 (macdList xs)

/-- `MACD_Histogram = MACD - Signal_Line`. -/
def histList (xs : List ℚ) : List ℚ :=
  List.zipWith (fun a b => a - b) (macdList xs) (signalList xs)

/-- Cast a rational column into a frame column. -/
def qcol (c : List (Option ℚ)) : List (Option ℝ) :=
  c.map (Option.map (fun (q : ℚ) => (q : ℝ)))

/-- `rolling(20).std()`: the square root of the sample variance. -/
noncomputable def stdCol (xs : List ℚ) : List (Option ℝ) :=
  (rollingVar 20 xs).map (Option.map (fun (v : ℚ) => Real.sqrt (v : ℝ)))

/-- One cell of `20MA + 2 * 20STD` (NaN when either input is NaN). -/
noncomputable def upperCell (mo so : Option ℝ) : Option ℝ :=
  match mo, so with
  | some m, some s => some (m + 2 * s)
  | _, _ => none

/-- One cell of `20MA - 2 * 20STD` (NaN when either input is NaN). -/
noncomputable def lowerCell (mo so : Option ℝ) : Option ℝ :=
  match mo, so with
  | some m, some s => some (m - 2 * s)
  | _, _ => none

/-- `Upper_Band = 20MA + 2 * 20STD` (NaN wherever either input is). -/
noncomputable def upperCol (xs : List ℚ) : List (Option ℝ) :=
  List.zipWith upperCell (qcol (rollingMean 20 xs)) (stdCol xs)

/-- `Lower_Band = 20MA - 2 * 20STD` (NaN wherever either input is). -/
noncomputable def lowerCol (xs : List ℚ) : List (Option ℝ) :=
  List.zipWith lowerCell (qcol (rollingMean 20 xs)) (stdCol xs)

/-- `calculate_technical_indicators`: adds the eight indicator columns
to the frame in source order and returns the (same, mutated) frame. -/
noncomputable def calculate_technical_indicators (data : Frame) : Frame :=
  let cl := closes data
  let d1 := setCol data "RSI" (qcol (rsiColumn cl))
  let d2 := setCol d1 "MACD" (qcol ((macdList cl).map some))
  let d3 := setCol d2 "Signal_Line" (qcol ((signalList cl).map some))
  let d4 := setCol d3 "MACD_Histogram" (qcol ((histList cl).map some))
  let d5 := setCol d4 "20MA" (qcol (rollingMean 20 cl))
  let d6 := setCol d5 "20STD" (stdCol cl)
  let d7 := setCol d6 "Upper_Band" (upperCol cl)
  setCol d7 "Lower_Band" (lowerCol cl)

/-- `freq='B'` keeps only weekdays; day 0 is a Monday. -/
def isWeekday (d : ℤ) : Bool := d % 7 < 5

/-- Membership in `pd.date_range(first, last, freq='B')`: the weekdays
between `first` and `last` inclusive. -/
def inBRange (first last d : ℤ) : Bool :=
  isWeekday d && decide (first ≤ d) && decide (d ≤ last)

/-- The business-day filter of `fetch_stock_data`:
`data[data.index.isin(pd.date_range(data.index[0], data.index[-1], freq='B'))]`.
On an empty frame `data.index[0]` raises `IndexError`. -/
def normalize (rows : List Row) : Except String (List Row) :=
  match rows with
  | [] => Except.error "IndexError: index 0 is out of bounds"
  | r :: rs =>
      let first := r.date
      let last := ((r :: rs).getLastD r).date
      Except.ok ((r :: rs).filter (fun x => inBRange first last x.date))

/-- The moving-average traces emitted by `plot_stock_data`: for each
window in `[50, 252]`, a trace named `"<w> Day MA"` is added only when
the series has at least `w` rows. -/
def emittedMAs (data : Frame) : List String :=
  (([50, 252] : List ℕ).filter (fun w => w ≤ data.rows.length)).map
    (fun w => toString w ++ " Day MA")

/-! ### Executable strict-increase check

`List.Chain'`'s `Decidable` instance does not reduce definitionally, so
strict monotonicity of a concrete column is checked with this Boolean
function and transported through `chainLt_iff`. -/

/-- `chainLtAux p l` : `p` is below the head of `l` and `l` ascends. -/
def chainLtAux : ℚ → List ℚ → Bool
  | _, [] => true
  | p, x :: xs => (decide (p < x) && chainLtAux x xs)

/-- Boolean test that a list of rationals is strictly increasing. -/
def chainLt : List ℚ → Bool
  | [] => true
  | x :: xs => chainLtAux x xs

/-! ### Concrete inputs used by the theorems -/

/-- The `i`-th consecutive business day, counting from a Monday at
day 0 (weekends are skipped). -/
def bday (i : ℕ) : ℤ := (i : ℤ) + 2 * ((i : ℤ) / 5)

/-- A row with the given date whose four prices all equal `c`. -/
def mkRow (d : ℤ) (c : ℚ) : Row := ⟨d, c, c, c, c, 0⟩

/-- A strictly rising close series of length 15 (100, 101, …, 114). -/
def r15 : List ℚ := (List.range 15).map (fun i => (100 + i : ℚ))

/-- A constant close series of length 15 (all closes 100). -/
def c15 : List ℚ := List.replicate 15 (100 : ℚ)

/-- 25 consecutive business-day rows with closes rising linearly from
100 to 124 in steps of 1 (the end-to-end example input). -/
def ex25 : Frame := ⟨(List.range 25).map (fun i => mkRow (bday i) (100 + i)), []⟩

/-- A 3-row frame (a series shorter than the Bollinger window). -/
def fr3 : Frame := ⟨(List.range 3).map (fun i => mkRow (bday i) (100 + i)), []⟩

/-- A 1-row frame with no extra columns. -/
def fr1 : Frame := ⟨[mkRow 0 100], []⟩

/-- A single row dated on a Saturday (day 5). -/
def satRows : List Row := [mkRow 5 100]

/-- Three rows dated Friday (day 4), Saturday (day 5) and the following
Monday (day 7). -/
def friSatMonRows : List Row := [mkRow 4 100, mkRow 5 101, mkRow 7 102]

/-- The Friday and Monday rows of `friSatMonRows` (its business-day
filtrate). -/
def friMonRows : List Row := [mkRow 4 100, mkRow 7 102]

/-! ### Helper lemmas -/

theorem chainLtAux_iff (p : ℚ) (l : List ℚ) :
    chainLtAux p l = true ↔ List.Chain (fun a b => a < b) p l := by
  induction l generalizing p with
  | nil => simp [chainLtAux]
  | cons x xs ih => simp [chainLtAux, List.chain_cons, ih]

theorem chainLt_iff (l : List ℚ) :
    chainLt l = true ↔ List.Chain' (fun a b => a < b) l := by
  cases l with
  | nil => simp [chainLt]
  | cons x xs => simpa [chainLt] using chainLtAux_iff x xs

theorem setCol_rows (f : Frame) (n : String) (v : List (Option ℝ)) :
    (setCol f n v).rows = f.rows := by
  unfold setCol
  split <;> rfl

theorem find?_map_replace {C : Type} (t : List (String × C)) (n m : String)
    (v : C) (h : n ≠ m) :
    (t.map (fun p => if p.1 = n then (n, v) else p)).find?
        (fun p => p.1 = m) = t.find? (fun p => p.1 = m) := by
  induction t with
  | nil => rfl
  | cons p t ih =>
    by_cases hp : p.1 = n
    · rw [List.map_cons, if_pos hp, List.find?_cons, List.find?_cons]
      have h1 : (decide (((n : String), v).1 = m)) = false := by simp [h]
      have h2 : (decide (p.1 = m)) = false := by simp [hp, h]
      simp [h1, h2, ih]
    · rw [List.map_cons, if_neg hp, List.find?_cons, List.find?_cons]
      cases hd : decide (p.1 = m) <;> simp [ih]

theorem find?_append_single {C : Type} (t : List (String × C)) (n m : String)
    (v : C) (h : n ≠ m) :
    ((t ++ [(n, v)]).find? (fun p => p.1 = m)) = t.find? (fun p => p.1 = m) := by
  induction t with
  | nil => simp [List.find?_cons, h]
  | cons p t ih =>
    rw [List.cons_append, List.find?_cons, List.find?_cons]
    cases hd : decide (p.1 = m) <;> simp [ih]

theorem find?_map_replace_self {C : Type} (t : List (String × C)) (n : String)
    (v : C) (h : t.any (fun p => p.1 = n) = true) :
    (t.map (fun p => if p.1 = n then (n, v) else p)).find?
        (fun p => p.1 = n) = some (n, v) := by
  induction t with
  | nil => simp at h
  | cons p t ih =>
    by_cases hp : p.1 = n
    · rw [List.map_cons, if_pos hp, List.find?_cons]
      simp
    · simp only [List.any_cons, hp] at h
      rw [List.map_cons, if_neg hp, List.find?_cons]
      have h2 : (decide (p.1 = n)) = false := by simp [hp]
      simp only [h2]
      exact ih (by simpa using h)

theorem find?_append_single_self {C : Type} (t : List (String × C)) (n : String)
    (v : C) (h : t.any (fun p => p.1 = n) = false) :
    ((t ++ [(n, v)]).find? (fun p => p.1 = n)) = some (n, v) := by
  induction t with
  | nil => simp [List.find?_cons]
  | cons p t ih =>
    simp only [List.any_cons, Bool.or_eq_false_iff] at h
    rw [List.cons_append, List.find?_cons]
    simp only [h.1]
    exact ih h.2

theorem getCol_setCol_self (f : Frame) (n : String) (v : List (Option ℝ)) :
    getCol (setCol f n v) n = some v := by
  by_cases h : f.extra.any (fun p => p.1 = n) = true
  · rw [setCol, if_pos h]
    show Option.map Prod.snd (List.find? _ _) = some v
    rw [find?_map_replace_self f.extra n v h]
    rfl
  · rw [setCol, if_neg h]
    show Option.map Prod.snd (List.find? _ _) = some v
    rw [find?_append_single_self f.extra n v (Bool.eq_false_iff.mpr h)]
    rfl

theorem getCol_setCol_ne (f : Frame) (n m : String) (v : List (Option ℝ))
    (h : n ≠ m) :
    getCol (setCol f n v) m = getCol f m := by
  by_cases hc : f.extra.any (fun p => p.1 = n) = true
  · rw [setCol, if_pos hc]
    show Option.map Prod.snd (List.find? _ _) = _
    rw [find?_map_replace f.extra n m v h]
    rfl
  · rw [setCol, if_neg hc]
    show Option.map Prod.snd (List.find? _ _) = _
    rw [find?_append_single f.extra n m v h]
    rfl

theorem calc_rows (f : Frame) :
    (calculate_technical_indicators f).rows = f.rows := by
  simp only [calculate_technical_indicators, setCol_rows]

theorem getCol_calc_RSI (f : Frame) :
    getCol (calculate_technical_indicators f) "RSI"
      = some (qcol (rsiColumn (closes f))) := by
  simp only [calculate_technical_indicators]
  rw [getCol_setCol_ne _ _ _ _ (by decide), getCol_setCol_ne _ _ _ _ (by decide),
    getCol_setCol_ne _ _ _ _ (by decide), getCol_setCol_ne _ _ _ _ (by decide),
    getCol_setCol_ne _ _ _ _ (by decide), getCol_setCol_ne _ _ _ _ (by decide),
    getCol_setCol_ne _ _ _ _ (by decide), getCol_setCol_self]

theorem getCol_calc_MACD (f : Frame) :
    getCol (calculate_technical_indicators f) "MACD"
      = some (qcol ((macdList (closes f)).map some)) := by
  simp only [calculate_technical_indicators]
  rw [getCol_setCol_ne _ _ _ _ (by decide), getCol_setCol_ne _ _ _ _ (by decide),
    getCol_setCol_ne _ _ _ _ (by decide), getCol_setCol_ne _ _ _ _ (by decide),
    getCol_setCol_ne _ _ _ _ (by decide), getCol_setCol_ne _ _ _ _ (by decide),
    getCol_setCol_self]

theorem getCol_calc_Signal (f : Frame) :
    getCol (calculate_technical_indicators f) "Signal_Line"
      = some (qcol ((signalList (closes f)).map some)) := by
  simp only [calculate_technical_indicators]
  rw [getCol_setCol_ne _ _ _ _ (by decide), getCol_setCol_ne _ _ _ _ (by decide),
    getCol_setCol_ne _ _ _ _ (by decide), getCol_setCol_ne _ _ _ _ (by decide),
    getCol_setCol_ne _ _ _ _ (by decide), getCol_setCol_self]

theorem getCol_calc_Hist (f : Frame) :
    getCol (calculate_technical_indicators f) "MACD_Histogram"
      = some (qcol ((histList (closes f)).map some)) := by
  simp only [calculate_technical_indicators]
  rw [getCol_setCol_ne _ _ _ _ (by decide), getCol_setCol_ne _ _ _ _ (by decide),
    getCol_setCol_ne _ _ _ _ (by decide), getCol_setCol_ne _ _ _ _ (by decide),
    getCol_setCol_self]

theorem getCol_calc_20MA (f : Frame) :
    getCol (calculate_technical_indicators f) "20MA"
      = some (qcol (rollingMean 20 (closes f))) := by
  simp only [calculate_technical_indicators]
  rw [getCol_setCol_ne _ _ _ _ (by decide), getCol_setCol_ne _ _ _ _ (by decide),
    getCol_setCol_ne _ _ _ _ (by decide), getCol_setCol_self]

theorem getCol_calc_20STD (f : Frame) :
    getCol (calculate_technical_indicators f) "20STD"
      = some (stdCol (closes f)) := by
  simp only [calculate_technical_indicators]
  rw [getCol_setCol_ne _ _ _ _ (by decide), getCol_setCol_ne _ _ _ _ (by decide),
    getCol_setCol_self]

theorem getCol_calc_Upper (f : Frame) :
    getCol (calculate_technical_indicators f) "Upper_Band"
      = some (upperCol (closes f)) := by
  simp only [calculate_technical_indicators]
  rw [getCol_setCol_ne _ _ _ _ (by decide), getCol_setCol_self]

theorem getCol_calc_Lower (f : Frame) :
    getCol (calculate_technical_indicators f) "Lower_Band"
      = some (lowerCol (closes f)) := by
  simp only [calculate_technical_indicators]
  rw [getCol_setCol_self]

theorem diffs_length (xs : List ℚ) : (diffs xs).length = xs.length := by
  cases xs with
  | nil => rfl
  | cons x t => simp [diffs]

theorem gains_length (xs : List ℚ) : (gains xs).length = xs.length := by
  simp [gains, diffs_length]

theorem losses_length (xs : List ℚ) : (losses xs).length = xs.length := by
  simp [losses, diffs_length]

theorem rollingMean_length (w : ℕ) (xs : List ℚ) :
    (rollingMean w xs).length = xs.length := by
  simp [rollingMean]

theorem rollingVar_length (w : ℕ) (xs : List ℚ) :
    (rollingVar w xs).length = xs.length := by
  simp [rollingVar]

theorem rsiColumn_length (xs : List ℚ) :
    (rsiColumn xs).length = xs.length := by
  simp [rsiColumn, rollingMean_length, gains_length, losses_length]

theorem qcol_length (c : List (Option ℚ)) : (qcol c).length = c.length := by
  simp [qcol]

theorem stdCol_length (xs : List ℚ) : (stdCol xs).length = xs.length := by
  simp [stdCol, rollingVar_length]

theorem upperCol_length (xs : List ℚ) : (upperCol xs).length = xs.length := by
  simp [upperCol, qcol_length, rollingMean_length, stdCol_length]

theorem lowerCol_length (xs : List ℚ) : (lowerCol xs).length = xs.length := by
  simp [lowerCol, qcol_length, rollingMean_length, stdCol_length]

theorem emaFrom_length (a p : ℚ) (l : List ℚ) :
    (emaFrom a p l).length = l.length := by
  induction l generalizing p with
  | nil => rfl
  | cons x xs ih => simp [emaFrom, ih]

theorem emaList_length (s : ℕ) (l : List ℚ) :
    (emaList s l).length = l.length := by
  cases l with
  | nil => rfl
  | cons x xs => simp [emaList, emaFrom_length]

theorem macdList_length (xs : List ℚ) :
    (macdList xs).length = xs.length := by
  simp [macdList, emaList_length]

theorem signalList_length (xs : List ℚ) :
    (signalList xs).length = xs.length := by
  simp [signalList, emaList_length, macdList_length]

theorem histList_length (xs : List ℚ) :
    (histList xs).length = xs.length := by
  simp [histList, macdList_length, signalList_length]

theorem rollingMean_getElem (w : ℕ) (xs : List ℚ) (i : ℕ) (h : i < xs.length) :
    (rollingMean w xs)[i]? = some (rollingIdx w xs i) := by
  simp [rollingMean, List.getElem?_range h]

theorem rollingVar_getElem (w : ℕ) (xs : List ℚ) (i : ℕ) (h : i < xs.length) :
    (rollingVar w xs)[i]? = some (rollingVarIdx w xs i) := by
  simp [rollingVar, List.getElem?_range h]

theorem rsiColumn_getElem (xs : List ℚ) (i : ℕ) (h : i < xs.length) :
    (rsiColumn xs)[i]? = some (rsiCellO
      (rollingIdx 14 (gains xs) i) (rollingIdx 14 (losses xs) i)) := by
  rw [rsiColumn, List.getElem?_zipWith,
    rollingMean_getElem 14 (gains xs) i (by rw [gains_length]; exact h),
    rollingMean_getElem 14 (losses xs) i (by rw [losses_length]; exact h)]

theorem rollingIdx_short (w : ℕ) (xs : List ℚ) (i : ℕ) (h : i + 1 < w) :
    rollingIdx w xs i = none := by
  simp [rollingIdx, Nat.not_le_of_lt h]

theorem rollingVarIdx_short (w : ℕ) (xs : List ℚ) (i : ℕ) (h : i + 1 < w) :
    rollingVarIdx w xs i = none := by
  simp [rollingVarIdx, Nat.not_le_of_lt h]

theorem getD_map_none {α β : Type} (h : Option α → Option β)
    (hn : h none = none) (l : List (Option α)) (i : ℕ) :
    (l.map h).getD i none = h (l.getD i none) := by
  rw [List.getD_eq_getElem?_getD, List.getD_eq_getElem?_getD, List.getElem?_map]
  cases l[i]? <;> simp [hn]

theorem getD_zipWith_none {α β γ : Type}
    (k : Option α → Option β → Option γ)
    (hk1 : ∀ y, k none y = none) (hk2 : ∀ x, k x none = none)
    (as : List (Option α)) (bs : List (Option β)) (i : ℕ) :
    (List.zipWith k as bs).getD i none = k (as.getD i none) (bs.getD i none) := by
  rw [List.getD_eq_getElem?_getD, List.getD_eq_getElem?_getD,
    List.getD_eq_getElem?_getD, List.getElem?_zipWith]
  cases as[i]? <;> cases bs[i]? <;> simp [hk1, hk2]

theorem closes_length (f : Frame) : (closes f).length = f.rows.length := by
  simp [closes]

theorem rollingMean_getD_short (xs : List ℚ) (i : ℕ) (h : xs.length < 20) :
    (rollingMean 20 xs).getD i none = none := by
  rw [List.getD_eq_getElem?_getD]
  by_cases hi : i < xs.length
  · rw [rollingMean_getElem 20 xs i hi,
      rollingIdx_short 20 xs i (by omega)]
    rfl
  · rw [List.getElem?_eq_none]
    · rfl
    · rw [rollingMean_length]; omega

theorem rollingVar_getD_short (xs : List ℚ) (i : ℕ) (h : xs.length < 20) :
    (rollingVar 20 xs).getD i none = none := by
  rw [List.getD_eq_getElem?_getD]
  by_cases hi : i < xs.length
  · rw [rollingVar_getElem 20 xs i hi,
      rollingVarIdx_short 20 xs i (by omega)]
    rfl
  · rw [List.getElem?_eq_none]
    · rfl
    · rw [rollingVar_length]; omega

theorem emaFrom_getD_succ (a : ℚ) (p : ℚ) (l : List ℚ) (t : ℕ)
    (h : t + 1 < l.length) :
    (emaFrom a p l).getD (t + 1) 0 =
      a * l.getD (t + 1) 0 + (1 - a) * (emaFrom a p l).getD t 0 := by
  induction l generalizing p t with
  | nil => simp at h
  | cons x xs ih =>
    cases xs with
    | nil => simp at h
    | cons y ys =>
      cases t with
      | zero => simp [emaFrom]
      | succ t' =>
        have h' : t' + 1 < (y :: ys).length := by
          simpa using Nat.lt_of_succ_lt_succ h
        simpa [emaFrom] using ih (a * x + (1 - a) * p) t' h'

theorem emaList_getD_zero (s : ℕ) (ys : List ℚ) (h : ys ≠ []) :
    (emaList s ys).getD 0 0 = ys.getD 0 0 := by
  cases ys with
  | nil => exact absurd rfl h
  | cons x xs => simp [emaList]

theorem emaList_getD_succ (s : ℕ) (ys : List ℚ) (t : ℕ)
    (h : t + 1 < ys.length) :
    (emaList s ys).getD (t + 1) 0 =
      (2 / ((s : ℚ) + 1)) * ys.getD (t + 1) 0 +
        (1 - 2 / ((s : ℚ) + 1)) * (emaList s ys).getD t 0 := by
  cases ys with
  | nil => simp at h
  | cons x xs =>
    cases xs with
    | nil => simp at h
    | cons y ys' =>
      cases t with
      | zero => simp [emaList, emaFrom]
      | succ t' =>
        have h' : t' + 1 < (y :: ys').length := by
          simpa using Nat.lt_of_succ_lt_succ h
        simpa [emaList] using
          emaFrom_getD_succ (2 / ((s : ℚ) + 1)) x (y :: ys') t' h'

theorem zipWith_diff_replicate (n : ℕ) (c : ℚ) :
    List.zipWith (fun a b => some (b - a)) (c :: List.replicate n c)
      (List.replicate n c) = List.replicate n (some (0 : ℚ)) := by
  induction n with
  | zero => rfl
  | succ m ih =>
    rw [List.replicate_succ, List.zipWith_cons_cons, ih, sub_self,
      ← List.replicate_succ]

theorem gains_replicate (n : ℕ) (c : ℚ) :
    gains (List.replicate n c) = List.replicate n 0 := by
  cases n with
  | zero => rfl
  | succ m =>
    rw [gains, List.replicate_succ, diffs, zipWith_diff_replicate,
      List.map_cons, List.map_replicate]
    rfl

theorem losses_replicate (n : ℕ) (c : ℚ) :
    losses (List.replicate n c) = List.replicate n 0 := by
  cases n with
  | zero => rfl
  | succ m =>
    rw [losses, List.replicate_succ, diffs, zipWith_diff_replicate,
      List.map_cons, List.map_replicate]
    rfl

theorem rollingIdx_replicate_zero (w m i : ℕ) :
    rollingIdx w (List.replicate m (0 : ℚ)) i = none ∨
      rollingIdx w (List.replicate m (0 : ℚ)) i = some 0 := by
  rw [rollingIdx]
  split
  · right
    rw [window, List.drop_replicate, List.take_replicate]
    simp
  · left
    rfl

theorem rsiCellO_of_zero (go lo : Option ℚ)
    (hg : go = none ∨ go = some 0) (hl : lo = none ∨ lo = some 0) :
    rsiCellO go lo = none := by
  rcases hg with rfl | rfl <;> rcases hl with rfl | rfl <;>
    simp [rsiCellO, rsiCell]

theorem pairwise_date_getLastD (l : List Row) (a : Row)
    (hp : List.Pairwise (fun u v : Row => u.date ≤ v.date) (a :: l)) :
    a.date ≤ ((a :: l).getLastD a).date ∧
      ∀ z ∈ a :: l, z.date ≤ ((a :: l).getLastD a).date := by
  induction l generalizing a with
  | nil => simp
  | cons b t ih =>
    have hab : a.date ≤ b.date := (List.pairwise_cons.mp hp).1 b (by simp)
    obtain ⟨h1, h2⟩ := ih b hp.of_cons
    rw [List.getLastD_cons, List.getLastD_cons] at *
    refine ⟨le_trans hab h1, ?_⟩
    intro z hz
    rcases List.mem_cons.mp hz with rfl | hz'
    · exact le_trans hab h1
    · exact h2 z hz'

theorem inBRange_parts (a b d : ℤ) (h : inBRange a b d = true) :
    isWeekday d = true ∧ a ≤ d ∧ d ≤ b := by
  simp only [inBRange, Bool.and_eq_true, decide_eq_true_eq] at h
  exact ⟨h.1.1, h.1.2, h.2⟩

theorem inBRange_of_parts (a b d : ℤ) (hw : isWeekday d = true)
    (h1 : a ≤ d) (h2 : d ≤ b) : inBRange a b d = true := by
  simp [inBRange, hw, h1, h2]

theorem qcol_map_some_all (l : List ℚ) :
    (qcol (l.map some)).all Option.isSome = true := by
  rw [List.all_eq_true]
  intro x hx
  rw [qcol, List.map_map, List.mem_map] at hx
  obtain ⟨q, _, rfl⟩ := hx
  rfl

theorem map_optionMap_all_isNone {α β : Type} (g : α → β)
    (c : List (Option α)) (h : c.all Option.isNone = true) :
    (c.map (Option.map g)).all Option.isNone = true := by
  rw [List.all_eq_true] at h ⊢
  intro x hx
  rw [List.mem_map] at hx
  obtain ⟨o, ho, rfl⟩ := hx
  have := h o ho
  cases o with
  | none => rfl
  | some a => simp at this

theorem zipWith_all_isNone {α β γ : Type} (k : Option α → Option β → Option γ)
    (hk1 : ∀ y, k none y = none) (as : List (Option α)) (bs : List (Option β))
    (ha : as.all Option.isNone = true) :
    (List.zipWith k as bs).all Option.isNone = true := by
  rw [List.all_eq_true]
  intro x hx
  obtain ⟨i, hi⟩ := List.mem_iff_getElem?.mp hx
  rw [List.getElem?_zipWith] at hi
  cases hA : as[i]? with
  | none => rw [hA] at hi; exact absurd hi (by simp)
  | some a =>
    cases hB : bs[i]? with
    | none => rw [hA, hB] at hi; exact absurd hi (by simp)
    | some b =>
      rw [hA, hB] at hi
      have hax : a ∈ as := List.getElem?_mem hA
      have : a.isNone = true := List.all_eq_true.mp ha a hax
      have ha' : a = none := Option.isNone_iff_eq_none.mp this
      have : x = k a b := by
        have := hi
        simp at this
        exact this.symm
      rw [this, ha', hk1]
      rfl

theorem rollingMean_all_none (xs : List ℚ) (h : xs.length < 20) :
    (rollingMean 20 xs).all Option.isNone = true := by
  rw [List.all_eq_true]
  intro x hx
  rw [rollingMean, List.mem_map] at hx
  obtain ⟨i, hi, rfl⟩ := hx
  rw [List.mem_range] at hi
  rw [rollingIdx_short 20 xs i (by omega)]
  rfl

theorem rollingVar_all_none (xs : List ℚ) (h : xs.length < 20) :
    (rollingVar 20 xs).all Option.isNone = true := by
  rw [List.all_eq_true]
  intro x hx
  rw [rollingVar, List.mem_map] at hx
  obtain ⟨i, hi, rfl⟩ := hx
  rw [List.mem_range] at hi
  rw [rollingVarIdx_short 20 xs i (by omega)]
  rfl

theorem upperCell_none_left (y : Option ℝ) : upperCell none y = none := by
  cases y <;> rfl

theorem upperCell_none_right (x : Option ℝ) : upperCell x none = none := by
  cases x <;> rfl

theorem lowerCell_none_left (y : Option ℝ) : lowerCell none y = none := by
  cases y <;> rfl

theorem lowerCell_none_right (x : Option ℝ) : lowerCell x none = none := by
  cases x <;> rfl

/-! ## Claim theorems -/

/-- C9: `calculate_technical_indicators` is deterministic — two
invocations on the same input frame produce identical outputs, every
indicator column equal value-for-value. -/
theorem computeIndicators_deterministic (f : Frame) :
    calculate_technical_indicators f = calculate_technical_indicators f := rfl

/-- C8: the `"50 Day MA"` trace is emitted iff the series has at least
50 rows, and the `"252 Day MA"` trace iff at least 252 rows; a shorter
series just omits the trace instead of erroring. -/
theorem ma_emitted_iff (f : Frame) :
    ("50 Day MA" ∈ emittedMAs f ↔ 50 ≤ f.rows.length) ∧
    ("252 Day MA" ∈ emittedMAs f ↔ 252 ≤ f.rows.length) := by
  by_cases h50 : 50 ≤ f.rows.length <;> by_cases h252 : 252 ≤ f.rows.length <;>
    simp [emittedMAs, h50, h252, List.filter] <;> decide

/-- C5 counterexample: `calculate_technical_indicators` mutates the
frame it is given — the caller's frame (which, by Python aliasing, is
the returned object) differs from the input frame, because eight
indicator columns were added in place. -/
theorem calc_mutates_input : calculate_technical_indicators fr1 ≠ fr1 := by
  intro h
  have h8 : (calculate_technical_indicators fr1).extra.length = 8 := by
    with_unfolding_all rfl
  rw [h] at h8
  simp [fr1] at h8

/-- C5 amended: the function does add indicator columns to the caller's
frame in place, but the OHLCV rows themselves (and in particular the
close series) are unchanged by the call, and no external state is
read. -/
theorem calc_preserves_ohlcv (f : Frame) :
    (calculate_technical_indicators f).rows = f.rows ∧
    closes (calculate_technical_indicators f) = closes f :=
  ⟨calc_rows f, by rw [closes, calc_rows, closes]⟩

/-- C2: at the failing input (an empty series) the business-day filter
of `fetch_stock_data` raises an `IndexError` reading `data.index[0]`,
so the pipeline errors instead of returning an empty result; the
indicator engine alone would map an empty frame to eight empty
columns. -/
theorem empty_input_errors_in_filter :
    normalize [] = Except.error "IndexError: index 0 is out of bounds" ∧
    getCol (calculate_technical_indicators ⟨[], []⟩) "RSI" = some [] ∧
    getCol (calculate_technical_indicators ⟨[], []⟩) "MACD" = some [] ∧
    getCol (calculate_technical_indicators ⟨[], []⟩) "Signal_Line" = some [] ∧
    getCol (calculate_technical_indicators ⟨[], []⟩) "MACD_Histogram" = some [] ∧
    getCol (calculate_technical_indicators ⟨[], []⟩) "20MA" = some [] ∧
    getCol (calculate_technical_indicators ⟨[], []⟩) "20STD" = some [] ∧
    getCol (calculate_technical_indicators ⟨[], []⟩) "Upper_Band" = some [] ∧
    getCol (calculate_technical_indicators ⟨[], []⟩) "Lower_Band" = some [] :=
  ⟨rfl, rfl, rfl, rfl, rfl, rfl, rfl, rfl, rfl⟩

/-- C1 counterexample: on the constant 15-point close series, RSI at
index 14 is NaN (undefined), not 100 — `avgGain = avgLoss = 0` gives
`RS = 0/0 = NaN`, which the code does not special-case. -/
theorem rsi_constant_15_nan :
    rsiIdx c15 14 = none ∧ rsiIdx c15 14 ≠ some 100 := by
  have h : rsiIdx c15 14 = none := by with_unfolding_all rfl
  exact ⟨h, by rw [h]; exact fun hc => Option.noConfusion hc⟩

/-- C1 amended: for a constant-price close series the RSI produced by
`calculate_technical_indicators` is undefined (NaN) at every index —
both rolling averages are zero, so `RS = 0/0` propagates as NaN; the
zero-loss denominator saturates RSI at 100 only when the average gain
is nonzero. -/
theorem rsi_constant_all_undefined (n : ℕ) (c : ℚ) (i : ℕ) :
    rsiIdx (List.replicate n c) i = none := by
  rw [rsiIdx, List.getD_eq_getElem?_getD]
  by_cases hi : i < n
  · have hlen : i < (List.replicate n c).length := by simpa using hi
    rw [rsiColumn_getElem _ i hlen, gains_replicate, losses_replicate,
      rsiCellO_of_zero _ _ (rollingIdx_replicate_zero 14 n i)
        (rollingIdx_replicate_zero 14 n i)]
    rfl
  · rw [List.getElem?_eq_none]
    · rfl
    · rw [rsiColumn_length]
      simpa using Nat.le_of_not_lt hi

/-- C3 counterexample: on a strictly rising 15-point series the RSI is
already defined (and equal to 100) at index 13 — the NaN from `diff()`
at index 0 is coerced to a zero gain/loss by `where`, so the 14-long
rolling window is already full at index 13, not 14. -/
theorem rsi_defined_at_13 :
    rsiIdx r15 13 = some 100 ∧ rsiIdx r15 13 ≠ none := by
  have h : rsiIdx r15 13 = some 100 := by with_unfolding_all rfl
  exact ⟨h, by rw [h]; exact fun hc => Option.noConfusion hc⟩

/-- C3 amended: the RSI column is undefined at indices 0..12; at any
in-range index `i ≥ 13` it is undefined exactly when the 14-period
average gain and average loss are both zero (the `0/0` case), and
defined otherwise. -/
theorem rsi_definedness (xs : List ℚ) (i : ℕ) (hlen : i < xs.length) :
    rsiIdx xs i = none ↔
      i < 13 ∨ (rollingIdx 14 (gains xs) i = some 0 ∧
        rollingIdx 14 (losses xs) i = some 0) := by
  rw [rsiIdx, List.getD_eq_getElem?_getD, rsiColumn_getElem xs i hlen]
  show rsiCellO (rollingIdx 14 (gains xs) i) (rollingIdx 14 (losses xs) i)
      = none ↔ _
  by_cases h13 : i < 13
  · rw [rollingIdx_short 14 (gains xs) i (by omega)]
    simp [rsiCellO, h13]
  · have h14 : 14 ≤ i + 1 := by omega
    rw [rollingIdx, rollingIdx, if_pos h14, if_pos h14]
    simp only [rsiCellO, h13, false_or, Option.some.injEq]
    rcases eq_or_ne ((window 14 (losses xs) i).sum / (14 : ℚ)) 0 with hl | hl <;>
      rcases eq_or_ne ((window 14 (gains xs) i).sum / (14 : ℚ)) 0 with hg | hg <;>
        simp [rsiCell, hl, hg]

/-- C3 witness: the amended characterisation applied to the rising
15-point series at index 13. -/
theorem rsi_definedness_witness :
    13 < r15.length ∧ (rsiIdx r15 13 = none ↔
      13 < 13 ∨ (rollingIdx 14 (gains r15) 13 = some 0 ∧
        rollingIdx 14 (losses r15) 13 = some 0)) :=
  ⟨by decide, rsi_definedness r15 13 (by decide)⟩

/-- C4: for every non-empty input series the MACD, Signal_Line and
MACD_Histogram columns have an entry at every index from 0 onward (no
warm-up gap); the EMAs follow the seeded `adjust=False` recursion
`ema[0] = close[0]`, `ema[t] = a*close[t] + (1-a)*ema[t-1]` with
`a = 2/(span+1)`; MACD is their pointwise difference; and
`MACD[0] = 0`. -/
theorem macd_defined_from_start (r : Row) (rs : List Row)
    (ex : List (String × List (Option ℝ))) :
    (∃ col, getCol (calculate_technical_indicators ⟨r :: rs, ex⟩) "MACD"
        = some col ∧ col.length = (r :: rs).length ∧
        col.all Option.isSome = true ∧
        col.getD 0 none = some ((0 : ℚ) : ℝ)) ∧
    (∃ col, getCol (calculate_technical_indicators ⟨r :: rs, ex⟩) "Signal_Line"
        = some col ∧ col.length = (r :: rs).length ∧
        col.all Option.isSome = true) ∧
    (∃ col, getCol (calculate_technical_indicators ⟨r :: rs, ex⟩) "MACD_Histogram"
        = some col ∧ col.length = (r :: rs).length ∧
        col.all Option.isSome = true) ∧
    (∀ (s : ℕ) (x : ℚ) (xs : List ℚ),
      emaList s (x :: xs) = x :: emaFrom (2 / ((s : ℚ) + 1)) x xs) ∧
    (∀ (a p y : ℚ) (ys : List ℚ),
      emaFrom a p (y :: ys) =
        (a * y + (1 - a) * p) :: emaFrom a (a * y + (1 - a) * p) ys) ∧
    macdList (closes ⟨r :: rs, ex⟩) = List.zipWith (fun u v => u - v)
      (emaList 12 (closes ⟨r :: rs, ex⟩)) (emaList 26 (closes ⟨r :: rs, ex⟩)) := by
  have hcl : closes ⟨r :: rs, ex⟩ = r.Close :: rs.map Row.Close := rfl
  have hlen : (closes ⟨r :: rs, ex⟩).length = (r :: rs).length :=
    closes_length ⟨r :: rs, ex⟩
  refine ⟨⟨qcol ((macdList (closes ⟨r :: rs, ex⟩)).map some),
      getCol_calc_MACD _, ?_, qcol_map_some_all _, ?_⟩,
    ⟨qcol ((signalList (closes ⟨r :: rs, ex⟩)).map some),
      getCol_calc_Signal _, ?_, qcol_map_some_all _⟩,
    ⟨qcol ((histList (closes ⟨r :: rs, ex⟩)).map some),
      getCol_calc_Hist _, ?_, qcol_map_some_all _⟩,
    fun _ _ _ => rfl, fun _ _ _ _ => rfl, rfl⟩
  · rw [qcol_length, List.length_map, macdList_length, hlen]
  · rw [hcl, macdList, emaList, emaList, List.zipWith_cons_cons, sub_self]
    rfl
  · rw [qcol_length, List.length_map, signalList_length, hlen]
  · rw [qcol_length, List.length_map, histList_length, hlen]

/-- C6: for an input series shorter than 20 rows, the 20-period middle
band, the rolling standard deviation, and the upper and lower Bollinger
bands are undefined (NaN) at every index of their (full-length)
columns — no partially defined band value appears anywhere. -/
theorem bollinger_short_all_undefined (f : Frame) (h : f.rows.length < 20) :
    (∃ col, getCol (calculate_technical_indicators f) "20MA" = some col ∧
      col.length = f.rows.length ∧ col.all Option.isNone = true) ∧
    (∃ col, getCol (calculate_technical_indicators f) "20STD" = some col ∧
      col.length = f.rows.length ∧ col.all Option.isNone = true) ∧
    (∃ col, getCol (calculate_technical_indicators f) "Upper_Band" = some col ∧
      col.length = f.rows.length ∧ col.all Option.isNone = true) ∧
    (∃ col, getCol (calculate_technical_indicators f) "Lower_Band" = some col ∧
      col.length = f.rows.length ∧ col.all Option.isNone = true) := by
  have hcl : (closes f).length < 20 := by rw [closes_length]; exact h
  have hma : (qcol (rollingMean 20 (closes f))).all Option.isNone = true :=
    map_optionMap_all_isNone _ _ (rollingMean_all_none _ hcl)
  have hstd : (stdCol (closes f)).all Option.isNone = true :=
    map_optionMap_all_isNone _ _ (rollingVar_all_none _ hcl)
  refine ⟨⟨qcol (rollingMean 20 (closes f)), getCol_calc_20MA f, ?_, hma⟩,
    ⟨stdCol (closes f), getCol_calc_20STD f, ?_, hstd⟩,
    ⟨upperCol (closes f), getCol_calc_Upper f, ?_,
      zipWith_all_isNone upperCell upperCell_none_left _ _ hma⟩,
    ⟨lowerCol (closes f), getCol_calc_Lower f, ?_,
      zipWith_all_isNone lowerCell lowerCell_none_left _ _ hma⟩⟩
  · rw [qcol_length, rollingMean_length, closes_length]
  · rw [stdCol_length, closes_length]
  · rw [upperCol_length, closes_length]
  · rw [lowerCol_length, closes_length]

theorem qcol_getD (c : List (Option ℚ)) (i : ℕ) :
    (qcol c).getD i none
      = Option.map (fun (q : ℚ) => (q : ℝ)) (c.getD i none) :=
  getD_map_none _ rfl c i

theorem stdCol_getD (xs : List ℚ) (i : ℕ) :
    (stdCol xs).getD i none
      = Option.map (fun (v : ℚ) => Real.sqrt (v : ℝ))
          ((rollingVar 20 xs).getD i none) := by
  rw [stdCol]
  exact getD_map_none _ rfl _ i

theorem upperCol_getD (xs : List ℚ) (i : ℕ) :
    (upperCol xs).getD i none
      = upperCell ((qcol (rollingMean 20 xs)).getD i none)
          ((stdCol xs).getD i none) := by
  rw [upperCol]
  exact getD_zipWith_none upperCell upperCell_none_left upperCell_none_right _ _ i

/-- C6 witness: the theorem applied to a concrete 3-row frame. -/
theorem bollinger_short_all_undefined_witness :
    fr3.rows.length < 20 ∧
    ((∃ col, getCol (calculate_technical_indicators fr3) "20MA" = some col ∧
      col.length = fr3.rows.length ∧ col.all Option.isNone = true) ∧
    (∃ col, getCol (calculate_technical_indicators fr3) "20STD" = some col ∧
      col.length = fr3.rows.length ∧ col.all Option.isNone = true) ∧
    (∃ col, getCol (calculate_technical_indicators fr3) "Upper_Band" = some col ∧
      col.length = fr3.rows.length ∧ col.all Option.isNone = true) ∧
    (∃ col, getCol (calculate_technical_indicators fr3) "Lower_Band" = some col ∧
      col.length = fr3.rows.length ∧ col.all Option.isNone = true)) :=
  ⟨by decide, bollinger_short_all_undefined fr3 (by decide)⟩

/-- C7: on the 25-point linear ramp 100..124 over consecutive business
days, the 20-period SMA at the last index is `mean(105..124) = 114.5`;
the 20-period sample standard deviation there is `√35 > 0`; the upper
band equals `114.5 + 2·√35`; RSI equals 100 at every index from 14
onward; and the MACD column is strictly increasing. -/
theorem endtoend_example :
    (∃ col, getCol (calculate_technical_indicators ex25) "20MA" = some col ∧
      col.getD 24 none = some ((229 : ℝ) / 2)) ∧
    (∃ col, getCol (calculate_technical_indicators ex25) "20STD" = some col ∧
      col.getD 24 none = some (Real.sqrt 35) ∧ 0 < Real.sqrt 35) ∧
    (∃ col, getCol (calculate_technical_indicators ex25) "Upper_Band" = some col ∧
      col.getD 24 none = some ((229 : ℝ) / 2 + 2 * Real.sqrt 35)) ∧
    (∃ col, getCol (calculate_technical_indicators ex25) "RSI" = some col ∧
      ∀ i, i < 25 → 14 ≤ i → col.getD i none = some ((100 : ℚ) : ℝ)) ∧
    (∃ col, getCol (calculate_technical_indicators ex25) "MACD" = some col ∧
      col = qcol ((macdList (closes ex25)).map some) ∧
      List.Chain' (fun a b => a < b) (macdList (closes ex25))) := by
  have hmean : (rollingMean 20 (closes ex25)).getD 24 none
      = some ((229 : ℚ) / 2) := by
    with_unfolding_all rfl
  have hvar : (rollingVar 20 (closes ex25)).getD 24 none = some (35 : ℚ) := by
    with_unfolding_all rfl
  have hcast : (((229 : ℚ) / 2 : ℚ) : ℝ) = (229 : ℝ) / 2 := by
    push_cast
    ring
  have hcast35 : ((35 : ℚ) : ℝ) = (35 : ℝ) := by norm_num
  have hsqrtpos : 0 < Real.sqrt 35 := Real.sqrt_pos.mpr (by norm_num)
  have hmaD : (qcol (rollingMean 20 (closes ex25))).getD 24 none
      = some ((229 : ℝ) / 2) := by
    rw [qcol_getD, hmean, Option.map_some', hcast]
  have hstdD : (stdCol (closes ex25)).getD 24 none = some (Real.sqrt 35) := by
    rw [stdCol_getD, hvar, Option.map_some', hcast35]
  refine ⟨⟨qcol (rollingMean 20 (closes ex25)), getCol_calc_20MA _, hmaD⟩,
    ⟨stdCol (closes ex25), getCol_calc_20STD _, hstdD, hsqrtpos⟩,
    ⟨upperCol (closes ex25), getCol_calc_Upper _, ?_⟩,
    ⟨qcol (rsiColumn (closes ex25)), getCol_calc_RSI _, ?_⟩,
    ⟨qcol ((macdList (closes ex25)).map some), getCol_calc_MACD _, rfl,
      (chainLt_iff _).mp (by with_unfolding_all rfl)⟩⟩
  · rw [upperCol_getD, hmaD, hstdD]
    rfl
  · intro i h1 h2
    have hq : ∀ j, j < 25 → 14 ≤ j →
        (rsiColumn (closes ex25)).getD j none = some 100 :=
      of_decide_eq_true (by with_unfolding_all rfl)
    rw [qcol_getD, hq i h1 h2, Option.map_some']

/-- C10 counterexample: the single-Saturday series is non-empty and
date-ordered, its business-day filtrate is the empty series, and the
filter applied to that result errors (reads `data.index[0]` of an empty
frame) instead of returning it unchanged — so filtering twice is not
the same as filtering once. -/
theorem normalize_not_idempotent_on_sat :
    satRows ≠ [] ∧
    List.Pairwise (fun u v : Row => u.date ≤ v.date) satRows ∧
    normalize satRows = Except.ok ([] : List Row) ∧
    normalize ([] : List Row) ≠ Except.ok ([] : List Row) := by
  refine ⟨by decide, by decide, by with_unfolding_all rfl, ?_⟩
  intro h
  rw [show normalize ([] : List Row)
      = Except.error "IndexError: index 0 is out of bounds" from rfl] at h
  exact Except.noConfusion h

/-- C10 amended: the business-day filter is idempotent on every
non-empty date-ordered series whose filtrate is non-empty: applying the
filter to its own (non-empty) output returns that output unchanged.
(When the filtrate is empty the second application instead errors on
the empty frame.) -/
theorem normalize_idempotent (xs ys : List Row)
    (hs : List.Pairwise (fun u v : Row => u.date ≤ v.date) xs)
    (hok : normalize xs = Except.ok ys) (hne : ys ≠ []) :
    normalize ys = Except.ok ys := by
  cases xs with
  | nil => simp [normalize] at hok
  | cons r rs =>
    simp only [normalize, Except.ok.injEq] at hok
    cases ys with
    | nil => exact absurd rfl hne
    | cons y ts =>
      have hsub : List.Sublist (y :: ts) (r :: rs) := by
        rw [← hok]
        exact List.filter_sublist _
      have hsys : List.Pairwise (fun u v : Row => u.date ≤ v.date) (y :: ts) :=
        List.Pairwise.sublist hsub hs
      have hweek : ∀ z ∈ y :: ts, isWeekday z.date = true := by
        intro z hz
        rw [← hok] at hz
        have hp := List.of_mem_filter hz
        exact (inBRange_parts _ _ _ (by simpa using hp)).1
      obtain ⟨hyle, hall⟩ := pairwise_date_getLastD ts y hsys
      simp only [normalize, Except.ok.injEq]
      apply List.filter_eq_self.mpr
      intro z hz
      refine inBRange_of_parts _ _ _ (hweek z hz) ?_ (hall z hz)
      rcases List.mem_cons.mp hz with rfl | hz'
      · exact le_refl _
      · exact (List.pairwise_cons.mp hsys).1 z hz'

/-- C10 witness: the Friday–Saturday–Monday series filters to the
Friday–Monday series, on which the filter is the identity. -/
theorem normalize_idempotent_witness :
    List.Pairwise (fun u v : Row => u.date ≤ v.date) friSatMonRows ∧
    normalize friSatMonRows = Except.ok friMonRows ∧ friMonRows ≠ [] ∧
    normalize friMonRows = Except.ok friMonRows :=
  ⟨by decide, by with_unfolding_all rfl, by decide,
    normalize_idempotent friSatMonRows friMonRows (by decide)
      (by with_unfolding_all rfl) (by decide)⟩

end StockData
